import Mathlib

/-
Shallow embedding of the MARBLE core layers (MARBLE/layers.py) and the
post-processing entry point (MARBLE/postprocessing.py), together with
theorems settling the specification claims about them.

Conventions of the embedding:
* matrices are lists of rows over an exact field (ℚ for the convolution
  layers, ℝ for the inner-product reducer whose scalar branch takes a
  true L2 norm);
* Python integer arithmetic is Nat/Int arithmetic, `//` is `Int.fdiv`
  (floor division) and division by zero is an explicit error value;
* fallible code returns `Except String _`, the string being the error
  class or assertion message of the Python code;
* the mutable state of a module instance is passed explicitly
  (`DiffusionState` for the learned diffusion time).
-/

namespace MARBLE

/-- Matrices as lists of rows. -/
abbrev Mat (α : Type) := List (List α)

/-- Number of columns of a list matrix (length of its first row,
mirroring `tensor.shape[1]`). -/
def matCols {α : Type} (m : Mat α) : Nat := (m.getD 0 []).length

/-! ## Diffusion (layers.py, class Diffusion)

`Diffusion.forward(x, L, Lc=None, method='spectral', normalise=False)`:
the embedding keeps the control flow of the method — the in-place clamp of
`self.diffusion_time`, the construction of the fresh call-local dictionaries
`par_L = {'L': L}` / `par_Lc = {'Lc': Lc}`, the membership test
`'evals' not in par_Lc.keys()` guarding `compute_eigendecomposition`, the
dimension assert, and the dispatch to vector or scalar diffusion.  The
numerical diffusion itself lives in `lib/geometry.py` (outside the core);
the trace records which path was taken, whether the eigendecomposition was
computed during the call, and the diffusion time that was used. -/

/-- Which diffusion routine a call of `Diffusion.forward` dispatched to. -/
inductive DiffPath : Type
  | vector : DiffPath
  | scalar : DiffPath
deriving DecidableEq, Repr

/-- The state a `Diffusion` module instance owns: the learned scalar
`self.diffusion_time`.  It has no field for an eigendecomposition — the
Python object stores none. -/
structure DiffusionState : Type where
  diffusionTime : ℚ
deriving DecidableEq, Repr

deriving instance DecidableEq for Except

/-- One call's observable trace. -/
structure ForwardTrace : Type where
  usedTime : ℚ
  eigComputed : Bool
  result : Except String DiffPath
deriving DecidableEq, Repr

/-- Message of the dimension assert in `Diffusion.forward`. -/
def dimensionErrorMsg : String :=
  "Data dimension must be an integer multiple of the dimensions of the connection Laplacian!"

/-- Python error raised by `%` with a zero right operand. -/
def zeroDivisionErrorMsg : String := "integer division or modulo by zero"

/-- Embedding of `Diffusion.forward` for an input `x` of shape `V × K`,
a connection Laplacian of `lcRows` rows when present (`Lc=None` is
`none`).  The clamp floor `1e-8` is the rational `1/10^8`. -/
def Diffusion.forward (st : DiffusionState) (V K : Nat) (lcRows : Option Nat)
    (method : String) : DiffusionState × ForwardTrace :=
  let t : ℚ := max st.diffusionTime (1 / 100000000)
  let st' : DiffusionState := ⟨t⟩
  match lcRows with
  | some r =>
      let parLcKeys : List String := ["Lc"]
      let eig : Bool := method == "spectral" && !(parLcKeys.contains "evals")
      let result : Except String DiffPath :=
        if r = 0 then Except.error zeroDivisionErrorMsg
        else if (V * K) % r = 0 then Except.ok DiffPath.vector
        else Except.error dimensionErrorMsg
      (st', ⟨t, eig, result⟩)
  | none =>
      let parLKeys : List String := ["L"]
      let eig : Bool := method == "spectral" && !(parLKeys.contains "evals")
      (st', ⟨t, eig, Except.ok DiffPath.scalar⟩)

/-- Number of times `compute_eigendecomposition` runs across `n`
successive calls of `Diffusion.forward` on the same operator instance and
the same Laplacian, threading the instance state. -/
def Diffusion.eigComputationCount (st : DiffusionState) (V K : Nat)
    (lcRows : Option Nat) (method : String) : Nat → Nat
  | 0 => 0
  | n + 1 =>
      let res := Diffusion.forward st V K lcRows method
      (if res.2.eigComputed then 1 else 0) +
        Diffusion.eigComputationCount res.1 V K lcRows method n

/-! ## setup_layers (layers.py, line 26)

`cum_channels = s*((1-e**(o+1))//(1-e))` with Python integers:
`//` is floor division and a zero divisor raises `ZeroDivisionError`. -/

/-- Embedding of the cumulative-channel-count expression of
`setup_layers`, before the inner-product adjustment. -/
def setup_layers_cum_channels (s e o : Nat) : Except String Int :=
  if (1 : Int) - (e : Int) = 0 then Except.error zeroDivisionErrorMsg
  else Except.ok ((s : Int) * ((1 - (e : Int) ^ (o + 1)).fdiv (1 - (e : Int))))

/-! ## AnisoConv (layers.py, class AnisoConv)

`message_and_aggregate(K_t, x)` and the kernel loop of `forward` without
rotations (`R=None`).  Note two Python operator-precedence facts embedded
literally: the branch condition `(K_t.size(dim=1) % n*dim)==0` parses as
`((cols % n) * dim) == 0`, and `n_ch = n*dim // K_t.size(dim=1)` parses as
`(n*dim) // cols`. -/

/-- `m` is a `V × c` matrix (V rows, every row of length c). -/
def IsRect {α : Type} (m : Mat α) (V c : Nat) : Prop :=
  m.length = V ∧ ∀ r ∈ m, r.length = c

instance {α : Type} (m : Mat α) (V c : Nat) : Decidable (IsRect m V c) :=
  inferInstanceAs (Decidable (m.length = V ∧ ∀ r ∈ m, r.length = c))

/-- Dense matrix product `A @ B` (rows of `A` against columns of `B`). -/
def matMul (A B : Mat ℚ) : Mat ℚ :=
  A.map (fun row => (List.range (matCols B)).map (fun j =>
    ((List.range row.length).map (fun i =>
      row.getD i 0 * (B.getD i []).getD j 0)).sum))

/-- `tensor.view(-1, k)`: flatten row-major, regroup into rows of `k`. -/
def reshapeCols (m : Mat ℚ) (k : Nat) : Mat ℚ :=
  let flat := m.flatten
  (List.range (flat.length / k)).map (fun i =>
    (List.range k).map (fun j => flat.getD (i * k + j) 0))

/-- Embedding of `AnisoConv.message_and_aggregate(K_t, x)` where `K_t` is the
(dense view of the) transposed-kernel sparse operator.  With `n, dim = x.shape`,
the signal is reshaped to `n_ch = (n*dim) // cols(K_t)` columns when
`(cols(K_t) % n) * dim == 0`, multiplied by `K_t` and reshaped back to `dim`
columns. -/
def AnisoConv.message_and_aggregate (Kt x : Mat ℚ) : Mat ℚ :=
  let n := x.length
  let dim := matCols x
  let x' := if matCols Kt % n * dim = 0 then reshapeCols x (n * dim / matCols Kt) else x
  reshapeCols (matMul Kt x') dim

/-- `torch.stack(outs, axis=2)` followed by `.view(V, -1)`: the stacked tensor
is `(V, c, k)` and the row-major flatten puts the entry of kernel `k0`, column
`c0` at flat column `c0 * k + k0`. -/
def stackFlatten (outs : List (Mat ℚ)) : Mat ℚ :=
  let k := outs.length
  let V := (outs.getD 0 []).length
  let c := matCols (outs.getD 0 [])
  (List.range V).map (fun v =>
    (List.range (c * k)).map (fun j =>
      ((outs.getD (j % k) []).getD v []).getD (j / k) 0))

/-- Embedding of `AnisoConv.forward` without rotations (`R=None`): each
kernel's transposed sparse operator is applied through `propagate`
(`message_and_aggregate`), the per-kernel results are collected, stacked
along a new axis 2 and flattened row-major (`out.view(out.shape[0], -1)`). -/
def AnisoConv.forward (kernels : List (Mat ℚ)) (x : Mat ℚ) : Mat ℚ :=
  stackFlatten (kernels.map (fun K => AnisoConv.message_and_aggregate K x))

/-! ## InnerProductFeatures (layers.py, class InnerProductFeatures)

Real entries because the scalar branch takes a genuine L2 norm
(`x_.norm(dim=2)`). -/

/-- `tensor.norm(dim=2)` applied to one row: the L2 norm of the row. -/
noncomputable def rowNorm (v : List ℝ) : ℝ :=
  Real.sqrt ((v.map (fun a => a * a)).sum)

/-- `x_.reshape(x_.shape[0], D, -1)` (row-major): the 3-D tensor `[v][d][c]`
with `c` ranging over `row.length / D`. -/
def reshape3 (x : Mat ℝ) (D : Nat) : List (Mat ℝ) :=
  x.map (fun row =>
    (List.range D).map (fun d =>
      (List.range (row.length / D)).map (fun c =>
        row.getD (d * (row.length / D) + c) 0)))

/-- `torch.cat(ms, axis=1)` for 2-D tensors with equal row count. -/
def cat_axis1 (ms : List (Mat ℝ)) : Mat ℝ :=
  (List.range ((ms.getD 0 []).length)).map (fun v =>
    (ms.map (fun m => m.getD v [])).flatten)

/-- `torch.cat(ts, axis=2)` for 3-D tensors `[v][d][c]` with equal first two
dimensions. -/
def cat_axis2 (ts : List (List (Mat ℝ))) : List (Mat ℝ) :=
  (List.range ((ts.getD 0 []).length)).map (fun v =>
    (List.range (((ts.getD 0 []).getD 0 []).length)).map (fun d =>
      (ts.map (fun t => (t.getD v []).getD d [])).flatten))

/-- `torch.eye(D)`. -/
def eye (D : Nat) : Mat ℝ :=
  (List.range D).map (fun i => (List.range D).map (fun j => if i = j then (1 : ℝ) else 0))

/-- `InnerProductFeatures.reset_parameters`: every `O_j` weight matrix is set
to the `D×D` identity. -/
def InnerProductFeatures.reset_parameters (C D : Nat) : List (Mat ℝ) :=
  List.replicate C (eye D)

/-- `nn.Linear(D, D, bias=False)` with weight `W` applied to a vector `u`:
component `d` of the output is `Σ_e W[d][e] · u[e]`. -/
def linearApply (W : Mat ℝ) (u : List ℝ) : List ℝ :=
  W.map (fun wrow => ((List.range u.length).map (fun e =>
    wrow.getD e 0 * u.getD e 0)).sum)

/-- Column `j` of a per-node `D×C` slice: the vector `x[v][·][j]`. -/
def colVec (xv : Mat ℝ) (j : Nat) : List ℝ :=
  xv.map (fun drow => drow.getD j 0)

/-- The vector branch of `InnerProductFeatures.forward`: `Ox[j] = O_j(x[...,j])`
stacked along `dim=2`, then `xOx = einsum('bki,bkj->bi', x, Ox)`, i.e.
`out[v][i] = Σ_k Σ_j x[v][k][i] · Ox[v][k][j]`. -/
def ipVecOut (C D : Nat) (Ws : List (Mat ℝ)) (x : List (Mat ℝ)) : Mat ℝ :=
  x.map (fun xv =>
    (List.range C).map (fun i =>
      ((List.range D).map (fun k =>
        ((List.range C).map (fun j =>
          (xv.getD k []).getD i 0 *
            (linearApply (Ws.getD j []) (colVec xv j)).getD k 0)).sum)).sum))

/-- Message of the channel-count assert in `InnerProductFeatures.forward`. -/
def channelErrorMsg : String := "Number of channels is incorrect!"

/-- Embedding of `InnerProductFeatures.forward` for a module configured with
`(C, D)` and weights `Ws` (one `D×D` matrix per channel), applied to a list of
input tensors (a lone tensor is wrapped into a one-element list by the
source).  Each tensor is reshaped to `(V, D, -1)`; for `D == 1` the norm over
axis 2 is taken and the results concatenated along axis 1 — with no channel
count check; otherwise the tensors are concatenated along axis 2, the channel
count is asserted to equal `C`, and the bilinear reduction is applied. -/
noncomputable def InnerProductFeatures.forward (C D : Nat) (Ws : List (Mat ℝ))
    (xs : List (Mat ℝ)) : Except String (Mat ℝ) :=
  let x3s := xs.map (fun x_ => reshape3 x_ D)
  if D = 1 then
    Except.ok (cat_axis1 (x3s.map (fun t => t.map (fun xv => xv.map rowNorm))))
  else
    let x := cat_axis2 x3s
    if ((x.getD 0 []).getD 0 []).length = C then Except.ok (ipVecOut C D Ws x)
    else Except.error channelErrorMsg

/-- Plumbing accessor: the payload of an `ok` result, or a default. -/
def okOr {α : Type} (e : Except String α) (d : α) : α :=
  match e with
  | Except.ok m => m
  | Except.error _ => d

/-! ## compare_attractors (postprocessing.py)

The function's precondition region, embedded with Python attribute and
indexing semantics.  The source's first assert is
`assert hasattr(data, ('emb_2d', ))` — the attribute name passed to
`hasattr` is a tuple, and `hasattr` only swallows `AttributeError`, so
`getattr` raises `TypeError: attribute name must be string` on every call. -/

/-- Python error raised by `getattr`/`hasattr` on a non-string name. -/
def typeErrorMsg : String := "TypeError: attribute name must be string"

/-- Python `IndexError` for sequence indexing. -/
def indexErrorMsg : String := "IndexError: list index out of range"

/-- Message of the first assert of `compare_attractors`. -/
def noClustersMsg : String :=
  "No clusters found. First, run geometry.cluster(data) or postprocessing(data)!"

/-- Message of the slice-range assert. -/
def sliceRangeMsg : String := "Source and target must be < number of slices!"

/-- Message of the distinctness assert. -/
def sameSliceMsg : String := "Source and target must be different!"

/-- A Python attribute name as handed to `hasattr`: the source passes the
tuple `('emb_2d',)`, not a string. -/
inductive PyAttrName : Type
  | str : String → PyAttrName
  | tuple : List String → PyAttrName

/-- Python `hasattr(obj, name)`: for a non-string `name`, the underlying
`getattr` raises `TypeError`, which `hasattr` does not catch. -/
def pyHasattr (attrs : List String) : PyAttrName → Except String Bool
  | PyAttrName.str s => Except.ok (attrs.contains s)
  | PyAttrName.tuple _ => Except.error typeErrorMsg

/-- Python list indexing `l[i]`: negative indices count from the end,
out-of-range raises `IndexError`. -/
def pyIndex (l : List Int) (i : Int) : Except String Int :=
  let n : Int := l.length
  let j := if i < 0 then i + n else i
  if 0 ≤ j ∧ j < n then Except.ok (l.getD j.toNat 0) else Except.error indexErrorMsg

/-- The fields of the dataset object that the precondition region of
`compare_attractors` touches: the attribute names present on the object and
the slice offsets `data._slice_dict['x']`. -/
structure AttractorData : Type where
  attrs : List String
  slices : List Int

/-- Embedding of `compare_attractors(data, (s, t))` through its precondition
region (everything past the last assert is plotting work, summarised as
`Except.ok ()`).  The statement order follows the source: the `hasattr`
assert, the slice lookups `slices[s]`, `slices[s+1]`, `slices[t]`,
`slices[t+1]`, the range assert `s < n_slices-2 and t < n_slices-1`, and the
distinctness assert `s != t`. -/
def compare_attractors (data : AttractorData) (s t : Int) : Except String Unit := do
  let hb ← pyHasattr data.attrs (PyAttrName.tuple ["emb_2d"])
  if !hb then Except.error noClustersMsg
  else
    let slices := data.slices
    let nSlices : Int := slices.length - 1
    let _ ← pyIndex slices s
    let _ ← pyIndex slices (s + 1)
    let _ ← pyIndex slices t
    let _ ← pyIndex slices (t + 1)
    if ¬(s < nSlices - 2 ∧ t < nSlices - 1) then Except.error sliceRangeMsg
    else if s = t then Except.error sameSliceMsg
    else Except.ok ()

/-! ## Theorems -/

/-! ### List-matrix helper lemmas -/

theorem getD_map_range {α : Type} (f : Nat → α) (n i : Nat) (d : α) (h : i < n) :
    ((List.range n).map f).getD i d = f i := by
  rw [List.getD_eq_getElem?_getD, List.getElem?_map, List.getElem?_range h]
  rfl

theorem getD_map_list {α β : Type} (l : List α) (f : α → β) (i : Nat) (dα : α) (dβ : β)
    (h : i < l.length) : (l.map f).getD i dβ = f (l.getD i dα) := by
  rw [List.getD_eq_getElem _ _ (by simpa using h), List.getElem_map,
    List.getD_eq_getElem _ _ h]

theorem getD_mem {α : Type} (l : List α) (i : Nat) (d : α) (h : i < l.length) :
    l.getD i d ∈ l := by
  rw [List.getD_eq_getElem _ _ h]
  exact List.getElem_mem h

theorem length_flatten_rect {α : Type} (m : List (List α)) (k : Nat)
    (hrect : ∀ r ∈ m, r.length = k) : m.flatten.length = m.length * k := by
  induction m with
  | nil => simp
  | cons r rs ih =>
      simp only [List.flatten_cons, List.length_append, List.length_cons]
      rw [hrect r (by simp), ih (fun r2 hr2 => hrect r2 (by simp [hr2]))]
      ring

theorem flatten_getD_rect {α : Type} (m : List (List α)) (k : Nat) (d : α)
    (hrect : ∀ r ∈ m, r.length = k) (i j : Nat) (hi : i < m.length) (hj : j < k) :
    m.flatten.getD (i * k + j) d = (m.getD i []).getD j d := by
  induction m generalizing i with
  | nil => simp at hi
  | cons r rs ih =>
      have hr : r.length = k := hrect r (by simp)
      cases i with
      | zero =>
          rw [List.flatten_cons, Nat.zero_mul, Nat.zero_add,
            List.getD_append _ _ _ _ (by omega)]
          rfl
      | succ i2 =>
          have hge : r.length ≤ (i2 + 1) * k + j := by
            rw [hr]
            have : k ≤ (i2 + 1) * k := Nat.le_mul_of_pos_left k (Nat.succ_pos i2)
            omega
          rw [List.flatten_cons, List.getD_append_right _ _ _ _ hge]
          have harith : (i2 + 1) * k + j - r.length = i2 * k + j := by
            rw [hr, Nat.succ_mul]
            omega
          rw [harith, List.getD_cons_succ]
          exact ih (fun r2 hr2 => hrect r2 (by simp [hr2])) i2 (by simpa using hi)

theorem matCols_rect {α : Type} (m : Mat α) (V c : Nat) (h : IsRect m V c)
    (hV : 0 < V) : matCols m = c := by
  obtain ⟨hlen, hrows⟩ := h
  exact hrows _ (getD_mem m 0 [] (by omega))

theorem reshapeCols_rect (m : Mat ℚ) (V k : Nat) (hk : 0 < k) (hrect : IsRect m V k) :
    reshapeCols m k = m := by
  obtain ⟨hlen, hrows⟩ := hrect
  have hflat : m.flatten.length = m.length * k := length_flatten_rect m k hrows
  have hdiv : m.flatten.length / k = m.length := by rw [hflat, Nat.mul_div_cancel _ hk]
  apply List.ext_getElem
  · simp only [reshapeCols, List.length_map, List.length_range]
    exact hdiv
  · intro i h1 h2
    have hi : i < m.length := h2
    simp only [reshapeCols, hdiv] at h1 ⊢
    rw [List.getElem_map, List.getElem_range]
    apply List.ext_getElem
    · simp [hrows _ (List.getElem_mem hi)]
    · intro j hj1 hj2
      simp only [List.length_map, List.length_range] at hj1
      rw [List.getElem_map, List.getElem_range,
        flatten_getD_rect m k 0 hrows i j hi hj1,
        List.getD_eq_getElem _ _ hi, List.getD_eq_getElem _ _ hj2]

theorem matMul_rect (A B : Mat ℚ) (V : Nat) (hA : A.length = V) :
    IsRect (matMul A B) V (matCols B) := by
  constructor
  · simp [matMul, hA]
  · intro r hr
    simp only [matMul, List.mem_map] at hr
    obtain ⟨row, _, rfl⟩ := hr
    simp

theorem matCols_matMul (A B : Mat ℚ) (hA : 0 < A.length) :
    matCols (matMul A B) = matCols B := by
  unfold matCols
  rw [show (matMul A B).getD 0 [] =
      (List.range (matCols B)).map (fun j =>
        ((List.range (A.getD 0 []).length).map (fun i =>
          (A.getD 0 []).getD i 0 * (B.getD i []).getD j 0)).sum) from
    getD_map_list A _ 0 [] [] hA]
  simp [matCols]

/-- Every square-operator application inside `AnisoConv.forward` takes the
reshape branch with `n_ch = dim`, and both reshapes are then identities, so
`message_and_aggregate` is the plain matrix product. -/
theorem message_and_aggregate_square (Kt x : Mat ℚ) (V c : Nat)
    (hx : IsRect x V c) (hV : 0 < V) (hc : 0 < c)
    (hKt : Kt.length = V) (hKtc : matCols Kt = V) :
    AnisoConv.message_and_aggregate Kt x = matMul Kt x := by
  have hxc : matCols x = c := matCols_rect x V c hx hV
  have hxl : x.length = V := hx.1
  simp only [AnisoConv.message_and_aggregate, hxc, hxl, hKtc, Nat.mod_self,
    Nat.zero_mul, if_pos rfl]
  rw [Nat.mul_div_cancel_left c hV, reshapeCols_rect x V c hc ⟨hxl, hx.2⟩]
  have hmm : IsRect (matMul Kt x) V (matCols x) := matMul_rect Kt x V hKt
  rw [hxc] at hmm
  exact reshapeCols_rect (matMul Kt x) V c hc hmm

theorem sum_map_range (n : Nat) (f : Nat → ℝ) :
    ((List.range n).map f).sum = ∑ i ∈ Finset.range n, f i := rfl

theorem map_range_getD_self (l : List ℝ) :
    (List.range l.length).map (fun c => l.getD c 0) = l := by
  apply List.ext_getElem
  · simp
  · intro i h1 h2
    simp only [List.length_map, List.length_range] at h1
    rw [List.getElem_map, List.getElem_range, List.getD_eq_getElem _ _ h2]

theorem getD_replicate_mat (n i : Nat) (a : Mat ℝ) (h : i < n) :
    (List.replicate n a).getD i [] = a := by
  rw [List.getD_eq_getElem _ _ (by simpa using h)]
  exact List.getElem_replicate a _

theorem rowNorm_nonneg (v : List ℝ) : 0 ≤ rowNorm v := Real.sqrt_nonneg _

theorem rowNorm_single (a : ℝ) : rowNorm [a] = |a| := by
  simp [rowNorm, Real.sqrt_mul_self_eq_abs]

theorem length_one_eq_single (l : List ℝ) (h : l.length = 1) : l = [l.getD 0 0] := by
  cases l with
  | nil => simp at h
  | cons a t =>
      cases t with
      | nil => rfl
      | cons b t2 => simp at h

/-- With `D = 1`, reshaping to `(V, 1, -1)` and taking the norm over axis 2
turns each input tensor into the column of its row norms. -/
theorem reshape3_one_norm (x_ : Mat ℝ) :
    (reshape3 x_ 1).map (fun xv => xv.map rowNorm) =
      x_.map (fun row => [rowNorm row]) := by
  unfold reshape3
  rw [List.map_map]
  apply List.map_congr_left
  intro row _
  simp only [Function.comp, Nat.div_one, List.range_succ, List.range_zero,
    List.nil_append, List.map_cons, List.map_nil, Nat.zero_mul, Nat.zero_add]
  rw [map_range_getD_self row]

/-- A `D×D` identity weight acts as the identity on length-`D` vectors. -/
theorem linearApply_eye (D : Nat) (u : List ℝ) (hu : u.length = D) (k : Nat)
    (hk : k < D) : (linearApply (eye D) u).getD k 0 = u.getD k 0 := by
  unfold linearApply eye
  rw [List.map_map, getD_map_range _ D k 0 hk]
  simp only [Function.comp]
  rw [sum_map_range, hu]
  have hcongr : ∀ e ∈ Finset.range D,
      ((List.range D).map (fun j => if k = j then (1 : ℝ) else 0)).getD e 0 * u.getD e 0 =
        (if k = e then (1 : ℝ) else 0) * u.getD e 0 := by
    intro e he
    rw [getD_map_range _ D e 0 (Finset.mem_range.mp he)]
  rw [Finset.sum_congr rfl hcongr]
  simp only [ite_mul, one_mul, zero_mul]
  rw [Finset.sum_ite_eq (Finset.range D) k (fun e => u.getD e 0),
    if_pos (Finset.mem_range.mpr hk)]

/-- C4: for a signal `x` of shape `n × dim` (the `n = V·D` rows of the
block-expanded node set) and a transposed kernel operator `K_t`, the reshape
branch of `message_and_aggregate` is taken exactly when the column count of
`K_t` is an integer multiple of `n` (the branch condition
`(K_t.size(dim=1) % n*dim)==0` parses as `((cols % n) * dim) == 0`, which for
`dim ≥ 1` is `cols % n == 0`); in that case the signal is reshaped to
`n_ch = (n·dim) // cols` columns before the product, and otherwise `K_t` is
applied to `x` as-is with no reshape. -/
theorem message_and_aggregate_branch (Kt x : Mat ℚ) (n dim : Nat)
    (hn : x.length = n) (hdim : matCols x = dim) (hdim1 : 0 < dim)
    (hKt : 0 < matCols Kt) :
    ((matCols Kt % n * dim = 0) ↔ n ∣ matCols Kt) ∧
    (n ∣ matCols Kt →
      AnisoConv.message_and_aggregate Kt x =
        reshapeCols (matMul Kt (reshapeCols x (n * dim / matCols Kt))) dim) ∧
    (¬ n ∣ matCols Kt →
      AnisoConv.message_and_aggregate Kt x = reshapeCols (matMul Kt x) dim) := by
  have hmod : (matCols Kt % n * dim = 0) ↔ n ∣ matCols Kt := by
    rw [Nat.mul_eq_zero, Nat.dvd_iff_mod_eq_zero]
    omega
  refine ⟨hmod, fun h => ?_, fun h => ?_⟩
  · simp only [AnisoConv.message_and_aggregate, hn, hdim]
    rw [if_pos (hmod.mpr h)]
  · simp only [AnisoConv.message_and_aggregate, hn, hdim]
    rw [if_neg (fun hc => h (hmod.mp hc))]

/-- C4 witness: for `x` of shape `2×2`, a `2`-column `K_t` takes the reshape
branch (`2` is a multiple of `n = 2`) and a `1`-column `K_t` does not (it is
applied as-is). -/
theorem message_and_aggregate_branch_witness :
    ((([[1, 2], [3, 4]] : Mat ℚ).length = 2 ∧ matCols ([[1, 2], [3, 4]] : Mat ℚ) = 2 ∧
        0 < 2 ∧ (2 : Nat) ∣ matCols ([[5, 0], [0, 7]] : Mat ℚ) ∧
        ¬ (2 : Nat) ∣ matCols ([[5], [7]] : Mat ℚ)) ∧
      AnisoConv.message_and_aggregate [[5, 0], [0, 7]] [[1, 2], [3, 4]] =
        reshapeCols (matMul [[5, 0], [0, 7]]
          (reshapeCols [[1, 2], [3, 4]] (2 * 2 / matCols ([[5, 0], [0, 7]] : Mat ℚ)))) 2) ∧
    AnisoConv.message_and_aggregate [[5], [7]] [[1, 2], [3, 4]] =
      reshapeCols (matMul [[5], [7]] [[1, 2], [3, 4]]) 2 :=
  ⟨⟨⟨by decide, by decide, by decide, by decide, by decide⟩,
      (message_and_aggregate_branch [[5, 0], [0, 7]] [[1, 2], [3, 4]] 2 2
        (by decide) (by decide) (by decide) (by decide)).2.1 (by decide)⟩,
    (message_and_aggregate_branch [[5], [7]] [[1, 2], [3, 4]] 2 2
      (by decide) (by decide) (by decide) (by decide)).2.2 (by decide)⟩

/-- C7: for a nonempty kernel list over a `V × c` signal (square `V × V`
kernel operators, the scalar case), `AnisoConv.forward` returns a matrix with
`|kernels| · c` columns, and column `c0 · |kernels| + k0` of row `v` is entry
`(v, c0)` of kernel `k0`'s aggregate `K_{k0} @ x` — the per-kernel aggregates
stacked along a new axis and flattened row-major. -/
theorem aniso_forward_layout (kernels : List (Mat ℚ)) (x : Mat ℚ) (V c : Nat)
    (hx : IsRect x V c) (hV : 0 < V) (hc : 0 < c) (hne : kernels ≠ [])
    (hK : ∀ K ∈ kernels, IsRect K V V) :
    IsRect (AnisoConv.forward kernels x) V (kernels.length * c) ∧
    ∀ v c0 k0, v < V → c0 < c → k0 < kernels.length →
      ((AnisoConv.forward kernels x).getD v []).getD (c0 * kernels.length + k0) 0 =
        ((matMul (kernels.getD k0 []) x).getD v []).getD c0 0 := by
  have hklen : 0 < kernels.length := List.length_pos.mpr hne
  have hout : ∀ k0, k0 < kernels.length →
      (kernels.map (fun K => AnisoConv.message_and_aggregate K x)).getD k0 [] =
        matMul (kernels.getD k0 []) x := by
    intro k0 hk0
    rw [getD_map_list kernels _ k0 [] [] hk0]
    have hmem : kernels.getD k0 [] ∈ kernels := getD_mem kernels k0 [] hk0
    exact message_and_aggregate_square _ x V c hx hV hc (hK _ hmem).1
      (matCols_rect _ V V (hK _ hmem) hV)
  have hout0 := hout 0 hklen
  have h0len : ((kernels.map (fun K => AnisoConv.message_and_aggregate K x)).getD 0 []).length
      = V := by rw [hout0]; exact (matMul_rect _ x V (hK _ (getD_mem kernels 0 [] hklen)).1).1
  have h0cols : matCols ((kernels.map (fun K => AnisoConv.message_and_aggregate K x)).getD 0 [])
      = c := by
    rw [hout0, matCols_matMul _ x (by rw [(hK _ (getD_mem kernels 0 [] hklen)).1]; exact hV)]
    exact matCols_rect x V c hx hV
  constructor
  · constructor
    · simp only [AnisoConv.forward, stackFlatten, List.length_map, List.length_range, h0len]
    · intro r hr
      simp only [AnisoConv.forward, stackFlatten, List.mem_map] at hr
      obtain ⟨v, _, rfl⟩ := hr
      simp only [List.length_map, List.length_range, h0cols, List.length_map]
      ring
  · intro v c0 k0 hv hc0 hk0
    simp only [AnisoConv.forward, stackFlatten, List.length_map, h0len, h0cols]
    rw [getD_map_range _ V v [] hv]
    have hidx : c0 * kernels.length + k0 < c * kernels.length := by
      have h1 : c0 + 1 ≤ c := hc0
      calc c0 * kernels.length + k0 < c0 * kernels.length + kernels.length := by omega
        _ = (c0 + 1) * kernels.length := by ring
        _ ≤ c * kernels.length := Nat.mul_le_mul_right _ h1
    rw [getD_map_range _ (c * kernels.length) _ 0 hidx]
    have hmodk : (c0 * kernels.length + k0) % kernels.length = k0 := by
      rw [Nat.add_comm, Nat.add_mul_mod_self_right]
      exact Nat.mod_eq_of_lt hk0
    have hdivk : (c0 * kernels.length + k0) / kernels.length = c0 := by
      rw [Nat.add_comm, Nat.add_mul_div_right _ _ hklen, Nat.div_eq_of_lt hk0]
      omega
    rw [hmodk, hdivk, hout k0 hk0]

/-- C7 witness: 3 kernels over a 2-node, 4-channel scalar signal yield a
`2 × 12` output, and column `2·3 + 1` of row `1` is entry `(1, 2)` of the
second kernel's aggregate. -/
theorem aniso_forward_layout_witness :
    (IsRect ([[1, 2, 3, 4], [5, 6, 7, 8]] : Mat ℚ) 2 4 ∧
      ([[[1, 0], [0, 1]], [[2, 0], [0, 2]], [[0, 1], [1, 0]]] : List (Mat ℚ)) ≠ [] ∧
      IsRect (AnisoConv.forward [[[1, 0], [0, 1]], [[2, 0], [0, 2]], [[0, 1], [1, 0]]]
        [[1, 2, 3, 4], [5, 6, 7, 8]]) 2 (3 * 4)) ∧
    ((AnisoConv.forward [[[1, 0], [0, 1]], [[2, 0], [0, 2]], [[0, 1], [1, 0]]]
        [[1, 2, 3, 4], [5, 6, 7, 8]]).getD 1 []).getD (2 * 3 + 1) 0 =
      ((matMul (([[[1, 0], [0, 1]], [[2, 0], [0, 2]], [[0, 1], [1, 0]]] : List (Mat ℚ)).getD 1 [])
        [[1, 2, 3, 4], [5, 6, 7, 8]]).getD 1 []).getD 2 0 :=
  ⟨⟨by decide, by decide,
      (aniso_forward_layout [[[1, 0], [0, 1]], [[2, 0], [0, 2]], [[0, 1], [1, 0]]]
        [[1, 2, 3, 4], [5, 6, 7, 8]] 2 4 (by decide) (by decide) (by decide)
        (by decide) (by decide)).1⟩,
    (aniso_forward_layout [[[1, 0], [0, 1]], [[2, 0], [0, 2]], [[0, 1], [1, 0]]]
      [[1, 2, 3, 4], [5, 6, 7, 8]] 2 4 (by decide) (by decide) (by decide)
      (by decide) (by decide)).2 1 2 1 (by decide) (by decide) (by decide)⟩

/-- C3 counterexample: with `D = 1` and the single input tensor `[[3, 4]]`
(one node, two channels), the claim demands the output `[[|3|, |4|]] = [[3, 4]]`
(one column per channel), but the code's `x_.norm(dim=2)` reduces over the
channel axis and returns the single column `[[5]]`. -/
theorem ip_scalar_abs_counterexample :
    InnerProductFeatures.forward 2 1 (InnerProductFeatures.reset_parameters 2 1)
        [[[3, 4]]] = Except.ok [[5]] ∧ ([[(5 : ℝ)]] : Mat ℝ) ≠ [[3, 4]] := by
  constructor
  · have h5 : rowNorm [(3 : ℝ), 4] = 5 := by
      have h25 : (([(3 : ℝ), 4]).map (fun a => a * a)).sum = 25 := by norm_num
      rw [rowNorm, h25, show (25 : ℝ) = 5 * 5 by norm_num,
        Real.sqrt_mul_self (by norm_num)]
    simp only [InnerProductFeatures.forward, if_pos rfl, List.map_cons, List.map_nil]
    rw [show (reshape3 [[(3 : ℝ), 4]] 1).map (fun xv => xv.map rowNorm) =
        ([[(3 : ℝ), 4]] : Mat ℝ).map (fun row => [rowNorm row]) from
      reshape3_one_norm [[(3 : ℝ), 4]]]
    simp only [List.map_cons, List.map_nil, h5]
    simp [cat_axis1, List.range_succ]
  · simp

/-- C3 amended: with `D == 1` the output has one column per input *tensor*
(not per channel): entry `(v, i)` is the L2 norm of row `v` of tensor `i`
(the norm is taken over that tensor's channel axis), hence non-negative; it
equals the absolute value of the input entry exactly when tensor `i` has a
single channel. -/
theorem ip_scalar_branch_norms (Cc : Nat) (Ws : List (Mat ℝ)) (xs : List (Mat ℝ))
    (V : Nat) (hV : 0 < V) (hne : xs ≠ []) (hrect : ∀ x_ ∈ xs, x_.length = V) :
    (InnerProductFeatures.forward Cc 1 Ws xs).isOk = true ∧
    (okOr (InnerProductFeatures.forward Cc 1 Ws xs) []).length = V ∧
    (∀ r ∈ okOr (InnerProductFeatures.forward Cc 1 Ws xs) [], r.length = xs.length) ∧
    (∀ v i, v < V → i < xs.length →
      ((okOr (InnerProductFeatures.forward Cc 1 Ws xs) []).getD v []).getD i 0 =
        rowNorm ((xs.getD i []).getD v []) ∧
      0 ≤ ((okOr (InnerProductFeatures.forward Cc 1 Ws xs) []).getD v []).getD i 0) ∧
    (∀ v i, v < V → i < xs.length → ((xs.getD i []).getD v []).length = 1 →
      ((okOr (InnerProductFeatures.forward Cc 1 Ws xs) []).getD v []).getD i 0 =
        |((xs.getD i []).getD v []).getD 0 0|) := by
  have hxs0 : 0 < xs.length := List.length_pos.mpr hne
  have hfwd : InnerProductFeatures.forward Cc 1 Ws xs =
      Except.ok (cat_axis1 (xs.map (fun x_ => x_.map (fun row => [rowNorm row])))) := by
    simp only [InnerProductFeatures.forward]
    rw [if_true, List.map_map]
    congr 2
    exact List.map_congr_left (fun x_ _ => by
      simpa [Function.comp] using reshape3_one_norm x_)
  have hms0 : (xs.map (fun x_ => x_.map (fun row => [rowNorm row]))).getD 0 [] =
      (xs.getD 0 []).map (fun row => [rowNorm row]) :=
    getD_map_list xs _ 0 [] [] hxs0
  have hmsV : ((xs.map (fun x_ => x_.map (fun row => [rowNorm row]))).getD 0 []).length
      = V := by
    rw [hms0, List.length_map]
    exact hrect _ (getD_mem xs 0 [] hxs0)
  have hcat : cat_axis1 (xs.map (fun x_ => x_.map (fun row => [rowNorm row]))) =
      (List.range V).map (fun v =>
        ((xs.map (fun x_ => x_.map (fun row => [rowNorm row]))).map
          (fun m2 => m2.getD v [])).flatten) := by
    unfold cat_axis1
    rw [hmsV]
  have hlens : ∀ v, v < V →
      ∀ r ∈ (xs.map (fun x_ => x_.map (fun row => [rowNorm row]))).map
        (fun m2 => m2.getD v []), r.length = 1 := by
    intro v hv r hr
    rw [List.mem_map] at hr
    obtain ⟨m2, hm2, rfl⟩ := hr
    rw [List.mem_map] at hm2
    obtain ⟨x_, hx_, rfl⟩ := hm2
    have hvx : v < x_.length := by rw [hrect _ hx_]; exact hv
    rw [getD_map_list x_ _ v [] [] hvx]
    rfl
  have helem : ∀ v, v < V → ∀ i, i < xs.length →
      ((xs.map (fun x_ => x_.map (fun row => [rowNorm row]))).map
        (fun m2 => m2.getD v [])).getD i [] =
        [rowNorm ((xs.getD i []).getD v [])] := by
    intro v hv i hi
    rw [getD_map_list _ _ i [] [] (by simpa using hi),
      getD_map_list xs _ i [] [] hi]
    have hvx : v < (xs.getD i []).length := by
      rw [hrect _ (getD_mem xs i [] hi)]; exact hv
    rw [getD_map_list _ _ v [] [] hvx]
  have hflatlen : ∀ v, v < V →
      (((xs.map (fun x_ => x_.map (fun row => [rowNorm row]))).map
        (fun m2 => m2.getD v [])).flatten).length = xs.length := by
    intro v hv
    rw [length_flatten_rect _ 1 (hlens v hv), List.length_map, List.length_map,
      Nat.mul_one]
  have hentry : ∀ v i, v < V → i < xs.length →
      ((okOr (InnerProductFeatures.forward Cc 1 Ws xs) []).getD v []).getD i 0 =
        rowNorm ((xs.getD i []).getD v []) := by
    intro v i hv hi
    rw [hfwd]
    show ((cat_axis1 (xs.map (fun x_ => x_.map (fun row => [rowNorm row])))).getD v
      []).getD i 0 = _
    rw [hcat, getD_map_range _ V v [] hv]
    have hi2 : i < ((xs.map (fun x_ => x_.map (fun row => [rowNorm row]))).map
        (fun m2 => m2.getD v [])).length := by
      simpa using hi
    have hf := flatten_getD_rect _ 1 (0 : ℝ) (hlens v hv) i 0 hi2 (by omega)
    rw [Nat.mul_one, Nat.add_zero] at hf
    rw [hf, helem v hv i hi]
    rfl
  refine ⟨by rw [hfwd]; rfl, ?_, ?_, ?_, ?_⟩
  · rw [hfwd]
    show (cat_axis1 (xs.map (fun x_ => x_.map (fun row => [rowNorm row])))).length = V
    rw [hcat, List.length_map, List.length_range]
  · intro r hr
    rw [hfwd] at hr
    replace hr : r ∈ cat_axis1 (xs.map (fun x_ => x_.map (fun row => [rowNorm row]))) := hr
    rw [hcat, List.mem_map] at hr
    obtain ⟨v, hv, rfl⟩ := hr
    exact hflatlen v (List.mem_range.mp hv)
  · intro v i hv hi
    exact ⟨hentry v i hv hi, by rw [hentry v i hv hi]; exact rowNorm_nonneg _⟩
  · intro v i hv hi hlen1
    have h := hentry v i hv hi
    rw [length_one_eq_single _ hlen1, rowNorm_single] at h
    exact h

/-- C3 witness: two input tensors on two nodes, the first with one channel,
the second with two: the call succeeds, and the entry for the single-channel
tensor at node 0 is the absolute value of the input entry. -/
theorem ip_scalar_branch_norms_witness :
    ((0 : Nat) < 2 ∧ ([[[3], [4]], [[6, 8], [5, 12]]] : List (Mat ℝ)) ≠ [] ∧
      (∀ x_ ∈ ([[[3], [4]], [[6, 8], [5, 12]]] : List (Mat ℝ)), x_.length = 2) ∧
      ((([[[3], [4]], [[6, 8], [5, 12]]] : List (Mat ℝ)).getD 0 []).getD 0 []).length = 1) ∧
    (InnerProductFeatures.forward 2 1 [] [[[3], [4]], [[6, 8], [5, 12]]]).isOk = true ∧
    ((okOr (InnerProductFeatures.forward 2 1 [] [[[3], [4]], [[6, 8], [5, 12]]])
        []).getD 0 []).getD 0 0 =
      |((([[[3], [4]], [[6, 8], [5, 12]]] : List (Mat ℝ)).getD 0 []).getD 0 []).getD 0 0| :=
  ⟨⟨by omega, by simp, by simp, by simp⟩,
    (ip_scalar_branch_norms 2 [] [[[3], [4]], [[6, 8], [5, 12]]] 2 (by omega)
      (by simp) (by simp)).1,
    (ip_scalar_branch_norms 2 [] [[[3], [4]], [[6, 8], [5, 12]]] 2 (by omega)
      (by simp) (by simp)).2.2.2.2 0 0 (by omega) (by simp) (by simp)⟩

/-- C8: for `D > 1`, a `V × (C·D)` input and the identity initialization of
every `O_j` (what `reset_parameters` installs, i.e. before any training
step), `InnerProductFeatures.forward` succeeds and output feature `i` of
node `v` is the plain sum of inner products `Σ_j x_i · x_j`, where channel
vector `x_i` has component `k` at flat column `k·C + i` — elementwise equal
to the bilinear form `Σ_j x_i^T · O_j(x_j)` with `O_j = I`. -/
theorem ip_identity_init_plain_products (Cc D V : Nat) (x : Mat ℝ)
    (hD : 2 ≤ D) (hC : 0 < Cc) (hV : 0 < V) (hx : IsRect x V (Cc * D)) :
    (InnerProductFeatures.forward Cc D (InnerProductFeatures.reset_parameters Cc D)
      [x]).isOk = true ∧
    ∀ v i, v < V → i < Cc →
      ((okOr (InnerProductFeatures.forward Cc D
          (InnerProductFeatures.reset_parameters Cc D) [x]) []).getD v []).getD i 0 =
        ∑ j ∈ Finset.range Cc, ∑ k ∈ Finset.range D,
          (x.getD v []).getD (k * Cc + i) 0 * (x.getD v []).getD (k * Cc + j) 0 := by
  have hD0 : 0 < D := by omega
  have hD1 : D ≠ 1 := by omega
  have hxlen : x.length = V := hx.1
  have hLdiv : Cc * D / D = Cc := Nat.mul_div_cancel Cc hD0
  have ht : ∀ v, v < V → (reshape3 x D).getD v [] =
      (List.range D).map (fun d =>
        (List.range ((x.getD v []).length / D)).map (fun c =>
          (x.getD v []).getD (d * ((x.getD v []).length / D) + c) 0)) := by
    intro v hv
    exact getD_map_list x _ v [] [] (by rw [hxlen]; exact hv)
  have ht2 : ∀ v, v < V → (reshape3 x D).getD v [] =
      (List.range D).map (fun d => (List.range Cc).map (fun c =>
        (x.getD v []).getD (d * Cc + c) 0)) := by
    intro v hv
    have hrowlen : (x.getD v []).length = Cc * D :=
      hx.2 _ (getD_mem x v [] (by rw [hxlen]; exact hv))
    rw [ht v hv, hrowlen, hLdiv]
  have htlen : (reshape3 x D).length = V := by
    unfold reshape3
    rw [List.length_map, hxlen]
  have htD : ((reshape3 x D).getD 0 []).length = D := by
    rw [ht2 0 hV, List.length_map, List.length_range]
  have hcat2 : cat_axis2 [reshape3 x D] =
      (List.range V).map (fun v => (List.range D).map (fun d =>
        ((reshape3 x D).getD v []).getD d [])) := by
    unfold cat_axis2
    simp only [List.getD_cons_zero, htlen, htD, List.map_cons, List.map_nil,
      List.flatten_cons, List.flatten_nil, List.append_nil]
  have hcatlen : (cat_axis2 [reshape3 x D]).length = V := by
    rw [hcat2, List.length_map, List.length_range]
  have hxv : ∀ v, v < V → (cat_axis2 [reshape3 x D]).getD v [] =
      (List.range D).map (fun d => ((reshape3 x D).getD v []).getD d []) := by
    intro v hv
    rw [hcat2]
    exact getD_map_range _ V v [] hv
  have hxv2 : ∀ v, v < V → ∀ k, k < D →
      ((cat_axis2 [reshape3 x D]).getD v []).getD k [] =
        (List.range Cc).map (fun c => (x.getD v []).getD (k * Cc + c) 0) := by
    intro v hv k hk
    rw [hxv v hv,
      show ((List.range D).map (fun d => ((reshape3 x D).getD v []).getD d [])).getD k []
        = ((reshape3 x D).getD v []).getD k [] from getD_map_range _ D k [] hk,
      ht2 v hv]
    exact getD_map_range _ D k [] hk
  have hxvkj : ∀ v, v < V → ∀ k, k < D → ∀ j, j < Cc →
      (((cat_axis2 [reshape3 x D]).getD v []).getD k []).getD j 0 =
        (x.getD v []).getD (k * Cc + j) 0 := by
    intro v hv k hk j hj
    rw [hxv2 v hv k hk]
    exact getD_map_range _ Cc j 0 hj
  have hcheck : (((cat_axis2 [reshape3 x D]).getD 0 []).getD 0 []).length = Cc := by
    rw [hxv2 0 hV 0 hD0, List.length_map, List.length_range]
  have hfwd : InnerProductFeatures.forward Cc D
      (InnerProductFeatures.reset_parameters Cc D) [x] =
      Except.ok (ipVecOut Cc D (InnerProductFeatures.reset_parameters Cc D)
        (cat_axis2 [reshape3 x D])) := by
    simp only [InnerProductFeatures.forward, List.map_cons, List.map_nil]
    rw [if_neg hD1, if_pos hcheck]
  have hipentry : ∀ v, v < V → ∀ i, i < Cc →
      ((ipVecOut Cc D (InnerProductFeatures.reset_parameters Cc D)
          (cat_axis2 [reshape3 x D])).getD v []).getD i 0 =
        ∑ k ∈ Finset.range D, ∑ j ∈ Finset.range Cc,
          (((cat_axis2 [reshape3 x D]).getD v []).getD k []).getD i 0 *
            (linearApply ((InnerProductFeatures.reset_parameters Cc D).getD j [])
              (colVec ((cat_axis2 [reshape3 x D]).getD v []) j)).getD k 0 := by
    intro v hv i hi
    have h1 : (ipVecOut Cc D (InnerProductFeatures.reset_parameters Cc D)
        (cat_axis2 [reshape3 x D])).getD v [] =
        (List.range Cc).map (fun i2 =>
          ((List.range D).map (fun k =>
            ((List.range Cc).map (fun j =>
              (((cat_axis2 [reshape3 x D]).getD v []).getD k []).getD i2 0 *
                (linearApply ((InnerProductFeatures.reset_parameters Cc D).getD j [])
                  (colVec ((cat_axis2 [reshape3 x D]).getD v []) j)).getD k 0)).sum)).sum) :=
      getD_map_list _ _ v [] [] (by rw [hcatlen]; exact hv)
    rw [h1]
    exact getD_map_range _ Cc i 0 hi
  have hterm : ∀ v, v < V → ∀ k, k < D → ∀ j, j < Cc → ∀ i2, i2 < Cc →
      (((cat_axis2 [reshape3 x D]).getD v []).getD k []).getD i2 0 *
        (linearApply ((InnerProductFeatures.reset_parameters Cc D).getD j [])
          (colVec ((cat_axis2 [reshape3 x D]).getD v []) j)).getD k 0 =
      (x.getD v []).getD (k * Cc + i2) 0 * (x.getD v []).getD (k * Cc + j) 0 := by
    intro v hv k hk j hj i2 hi2
    have hw : (InnerProductFeatures.reset_parameters Cc D).getD j [] = eye D :=
      getD_replicate_mat Cc j (eye D) hj
    have hcolen : (colVec ((cat_axis2 [reshape3 x D]).getD v []) j).length = D := by
      show (((cat_axis2 [reshape3 x D]).getD v []).map (fun drow => drow.getD j 0)).length = D
      rw [List.length_map, hxv v hv, List.length_map, List.length_range]
    have hcolk : (colVec ((cat_axis2 [reshape3 x D]).getD v []) j).getD k 0 =
        (((cat_axis2 [reshape3 x D]).getD v []).getD k []).getD j 0 := by
      refine getD_map_list _ _ k [] 0 ?_
      rw [hxv v hv, List.length_map, List.length_range]
      exact hk
    rw [hw, linearApply_eye D _ hcolen k hk, hcolk, hxvkj v hv k hk i2 hi2,
      hxvkj v hv k hk j hj]
  refine ⟨by rw [hfwd]; rfl, ?_⟩
  intro v i hv hi
  rw [hfwd]
  show ((ipVecOut Cc D (InnerProductFeatures.reset_parameters Cc D)
      (cat_axis2 [reshape3 x D])).getD v []).getD i 0 = _
  rw [hipentry v hv i hi]
  refine Eq.trans (Finset.sum_congr rfl fun k hk => Finset.sum_congr rfl fun j hj =>
    hterm v hv k (Finset.mem_range.mp hk) j (Finset.mem_range.mp hj) i hi)
    Finset.sum_comm

/-- C8 witness: `x = [[1, 2, 3, 4]]` with `C = 2`, `D = 2`: the channel
vectors are `x_0 = (1, 3)` and `x_1 = (2, 4)`, and output feature `1` of the
single node equals `Σ_j x_1 · x_j`. -/
theorem ip_identity_init_plain_products_witness :
    (2 ≤ 2 ∧ 0 < 2 ∧ 0 < 1 ∧ IsRect ([[1, 2, 3, 4]] : Mat ℝ) 1 (2 * 2)) ∧
    (InnerProductFeatures.forward 2 2 (InnerProductFeatures.reset_parameters 2 2)
      [[[1, 2, 3, 4]]]).isOk = true ∧
    ((okOr (InnerProductFeatures.forward 2 2 (InnerProductFeatures.reset_parameters 2 2)
        [[[1, 2, 3, 4]]]) []).getD 0 []).getD 1 0 =
      ∑ j ∈ Finset.range 2, ∑ k ∈ Finset.range 2,
        (([[1, 2, 3, 4]] : Mat ℝ).getD 0 []).getD (k * 2 + 1) 0 *
          (([[1, 2, 3, 4]] : Mat ℝ).getD 0 []).getD (k * 2 + j) 0 :=
  ⟨⟨by omega, by omega, by omega, by constructor <;> simp⟩,
    (ip_identity_init_plain_products 2 2 1 [[1, 2, 3, 4]] (by omega) (by omega)
      (by omega) (by constructor <;> simp)).1,
    (ip_identity_init_plain_products 2 2 1 [[1, 2, 3, 4]] (by omega) (by omega)
      (by omega) (by constructor <;> simp)).2 0 1 (by omega) (by omega)⟩

/-- C9 counterexample: with `D = 1` the reducer performs no channel-count
check at all — the claim says the precondition applies to every call.  A
module configured with `C = 7` happily accepts a single tensor with 3
channels and returns a result. -/
theorem ip_channel_check_counterexample :
    (InnerProductFeatures.forward 7 1 (InnerProductFeatures.reset_parameters 7 1)
      [[[1, 2, 3]]]).isOk = true ∧ (3 : Nat) ≠ 7 :=
  ⟨rfl, by omega⟩

/-- C9 amended: the channel-count precondition is enforced only on the
vector branch: for `D ≥ 2`, on inputs where every tensor is reshapable
(`D` divides its width, so `reshape` at layers.py:180 succeeds), the call
fails with the channel-count assert exactly when the concatenated channel
count `Σ_i cols(x_i)/D` differs from the configured `C`, succeeding
otherwise with no partial result; for `D = 1` any call on a well-formed
input (a non-empty list of tensors with a common positive row count, what
`torch.cat` accepts) succeeds, with no channel-count check. -/
theorem ip_channel_count_check (Cc D : Nat) (Ws : List (Mat ℝ)) (xs : List (Mat ℝ))
    (V : Nat) (hD : 2 ≤ D) (hne : xs ≠ []) (hV : 0 < V)
    (hrect : ∀ x_ ∈ xs, x_.length = V)
    (hdvd : ∀ x_ ∈ xs, D ∣ matCols x_) :
    ((InnerProductFeatures.forward Cc D Ws xs = Except.error channelErrorMsg) ↔
      (xs.map (fun x_ => matCols x_ / D)).sum ≠ Cc) ∧
    ((xs.map (fun x_ => matCols x_ / D)).sum = Cc →
      (InnerProductFeatures.forward Cc D Ws xs).isOk = true) ∧
    (∀ Cc2 : Nat, ∀ Ws2 ys : List (Mat ℝ), ∀ V2 : Nat, 0 < V2 → ys ≠ [] →
      (∀ y ∈ ys, y.length = V2) →
      (InnerProductFeatures.forward Cc2 1 Ws2 ys).isOk = true) := by
  have hD0 : 0 < D := by omega
  have hD1 : D ≠ 1 := by omega
  have hxs0 : 0 < xs.length := List.length_pos.mpr hne
  have hts0 : (xs.map (fun x_ => reshape3 x_ D)).getD 0 [] = reshape3 (xs.getD 0 []) D :=
    getD_map_list xs _ 0 [] [] hxs0
  have htslen : ((xs.map (fun x_ => reshape3 x_ D)).getD 0 []).length = V := by
    rw [hts0]
    unfold reshape3
    rw [List.length_map]
    exact hrect _ (getD_mem xs 0 [] hxs0)
  have ht00 : ((xs.map (fun x_ => reshape3 x_ D)).getD 0 []).getD 0 [] =
      (List.range D).map (fun d =>
        (List.range (((xs.getD 0 []).getD 0 []).length / D)).map (fun c =>
          ((xs.getD 0 []).getD 0 []).getD
            (d * (((xs.getD 0 []).getD 0 []).length / D) + c) 0)) := by
    rw [hts0]
    exact getD_map_list _ _ 0 [] []
      (by rw [hrect _ (getD_mem xs 0 [] hxs0)]; exact hV)
  have ht00len : (((xs.map (fun x_ => reshape3 x_ D)).getD 0 []).getD 0 []).length = D := by
    rw [ht00, List.length_map, List.length_range]
  have hcA : (cat_axis2 (xs.map (fun x_ => reshape3 x_ D))).getD 0 [] =
      (List.range ((((xs.map (fun x_ => reshape3 x_ D)).getD 0 []).getD 0 []).length)).map
        (fun d => ((xs.map (fun x_ => reshape3 x_ D)).map
          (fun t => (t.getD 0 []).getD d [])).flatten) := by
    refine getD_map_range _ _ 0 [] ?_
    rw [htslen]
    exact hV
  have hcB : ((cat_axis2 (xs.map (fun x_ => reshape3 x_ D))).getD 0 []).getD 0 [] =
      ((xs.map (fun x_ => reshape3 x_ D)).map (fun t => (t.getD 0 []).getD 0 [])).flatten := by
    rw [hcA, ht00len]
    exact getD_map_range _ D 0 [] hD0
  have helemlen : ∀ x_ ∈ xs,
      (((reshape3 x_ D).getD 0 []).getD 0 []).length = matCols x_ / D := by
    intro x_ hx_
    have h1 : (reshape3 x_ D).getD 0 [] =
        (List.range D).map (fun d =>
          (List.range ((x_.getD 0 []).length / D)).map (fun c =>
            (x_.getD 0 []).getD (d * ((x_.getD 0 []).length / D) + c) 0)) :=
      getD_map_list x_ _ 0 [] [] (by rw [hrect _ hx_]; exact hV)
    have h2 : ((List.range D).map (fun d =>
        (List.range ((x_.getD 0 []).length / D)).map (fun c =>
          (x_.getD 0 []).getD (d * ((x_.getD 0 []).length / D) + c) 0))).getD 0 [] =
        (List.range ((x_.getD 0 []).length / D)).map (fun c =>
          (x_.getD 0 []).getD (0 * ((x_.getD 0 []).length / D) + c) 0) :=
      getD_map_range _ D 0 [] hD0
    rw [h1, h2, List.length_map, List.length_range]
    rfl
  have hcount : (((cat_axis2 (xs.map (fun x_ => reshape3 x_ D))).getD 0 []).getD 0
      []).length = (xs.map (fun x_ => matCols x_ / D)).sum := by
    rw [hcB, List.length_flatten, List.map_map, List.map_map]
    congr 1
    apply List.map_congr_left
    intro x_ hx_
    exact helemlen x_ hx_
  have hfwd2 : InnerProductFeatures.forward Cc D Ws xs =
      (if (((cat_axis2 (xs.map (fun x_ => reshape3 x_ D))).getD 0 []).getD 0 []).length = Cc
        then Except.ok (ipVecOut Cc D Ws (cat_axis2 (xs.map (fun x_ => reshape3 x_ D))))
        else Except.error channelErrorMsg) := by
    simp only [InnerProductFeatures.forward]
    rw [if_neg hD1]
  refine ⟨?_, ?_, ?_⟩
  · rw [hfwd2, hcount]
    by_cases h : (xs.map (fun x_ => matCols x_ / D)).sum = Cc
    · rw [if_pos h]
      simp [h]
    · rw [if_neg h]
      simp [h]
  · intro h
    rw [hfwd2, hcount, if_pos h]
    rfl
  · intro Cc2 Ws2 ys V2 _ _ _
    rfl

/-- C9 witness: `C = 3`, `D = 2`, one tensor of width 4 (2 channels, `2 ∣ 4`
so the reshape is well-formed): the vector branch rejects it with the
channel-count assert; and a `D = 1` call on a well-formed single-tensor
input with the wrong channel count succeeds unchecked. -/
theorem ip_channel_count_check_witness :
    ((2 ≤ 2 ∧ ([[[1, 2, 3, 4]]] : List (Mat ℝ)) ≠ [] ∧ (0 : Nat) < 1 ∧
        (∀ x_ ∈ ([[[1, 2, 3, 4]]] : List (Mat ℝ)), (2 : Nat) ∣ matCols x_) ∧
        (([[[1, 2, 3, 4]]] : List (Mat ℝ)).map (fun x_ => matCols x_ / 2)).sum ≠ 3) ∧
      InnerProductFeatures.forward 3 2 [] [[[1, 2, 3, 4]]] =
        Except.error channelErrorMsg) ∧
    (InnerProductFeatures.forward 5 1 [] [[[9]]]).isOk = true :=
  ⟨⟨⟨by omega, by simp, by omega, by norm_num [matCols], by simp [matCols]⟩,
      (ip_channel_count_check 3 2 [] [[[1, 2, 3, 4]]] 1 (by omega) (by simp)
        (by omega) (by simp) (by norm_num [matCols])).1.mpr (by simp [matCols])⟩,
    (ip_channel_count_check 3 2 [] [[[1, 2, 3, 4]]] 1 (by omega) (by simp)
      (by omega) (by simp) (by norm_num [matCols])).2.2 5 [] [[[9]]] 1
      (by omega) (by simp) (by simp)⟩

/-- C2: for every input of shape `V×K` and every connection Laplacian with
`r ≥ 1` rows, `Diffusion.forward` fails with the dimension-mismatch assert
exactly when `(V·K) % r ≠ 0`, and dispatches to vector diffusion otherwise. -/
theorem diffusion_vector_dim_check (st : DiffusionState) (V K r : Nat)
    (method : String) (hr : 0 < r) :
    ((V * K) % r = 0 →
      (Diffusion.forward st V K (some r) method).2.result = Except.ok DiffPath.vector) ∧
    ((V * K) % r ≠ 0 →
      (Diffusion.forward st V K (some r) method).2.result = Except.error dimensionErrorMsg) := by
  constructor <;> intro h <;>
    simp [Diffusion.forward, Nat.pos_iff_ne_zero.mp hr, h]

/-- C2 witness: `X` of shape `5×3` with `Lc` of shape `7×7` fails, since
`15 % 7 ≠ 0`. -/
theorem diffusion_vector_dim_check_witness :
    (0 < 7 ∧ (5 * 3) % 7 ≠ 0) ∧
    (Diffusion.forward ⟨0⟩ 5 3 (some 7) "spectral").2.result =
      Except.error dimensionErrorMsg :=
  ⟨⟨by decide, by decide⟩,
    (diffusion_vector_dim_check ⟨0⟩ 5 3 7 "spectral" (by decide)).2 (by decide)⟩

/-- C6: on every call of `Diffusion.forward` the stored diffusion time is
clamped in place to the floor `1e-8` before use: afterwards the stored
parameter satisfies `t ≥ 1e-8`, and the time used by the diffusion routines
is exactly that clamped stored value, hence strictly positive — whatever
value the training loop had written into the parameter. -/
theorem diffusion_time_clamp (st : DiffusionState) (V K : Nat)
    (lcRows : Option Nat) (method : String) :
    (1 / 100000000 : ℚ) ≤ (Diffusion.forward st V K lcRows method).1.diffusionTime ∧
    (Diffusion.forward st V K lcRows method).2.usedTime =
      (Diffusion.forward st V K lcRows method).1.diffusionTime ∧
    0 < (Diffusion.forward st V K lcRows method).2.usedTime := by
  have h1 : (1 / 100000000 : ℚ) ≤ max st.diffusionTime (1 / 100000000) :=
    le_max_right _ _
  have h2 : (0 : ℚ) < max st.diffusionTime (1 / 100000000) :=
    lt_of_lt_of_le (by norm_num) h1
  cases lcRows with
  | none => exact ⟨h1, rfl, h2⟩
  | some r => exact ⟨h1, rfl, h2⟩

/-- C1 counterexample: two successive spectral calls of one `Diffusion`
instance on the same connection Laplacian run `compute_eigendecomposition`
twice — in particular the second call recomputes it— because the dictionary
receiving `evals`/`evecs` is rebuilt fresh inside every call.  The claim
asserts the count is 1 and the second call's computation does not happen. -/
theorem diffusion_eig_memoization_counterexample :
    Diffusion.eigComputationCount ⟨0⟩ 4 2 (some 4) "spectral" 2 = 2 ∧
    (Diffusion.forward (Diffusion.forward ⟨0⟩ 4 2 (some 4) "spectral").1
        4 2 (some 4) "spectral").2.eigComputed = true := by
  constructor <;> rfl

/-- C1 amended: the eigendecomposition is not memoized across calls — it is
computed anew on every spectral call (exactly once within each call): across
`n` spectral calls on the same operator instance and the same Laplacian it
runs exactly `n` times, for the connection Laplacian and the scalar
Laplacian alike. -/
theorem diffusion_eig_computed_every_spectral_call (st : DiffusionState)
    (V K : Nat) (lcRows : Option Nat) (n : Nat) :
    Diffusion.eigComputationCount st V K lcRows "spectral" n = n := by
  induction n generalizing st with
  | zero => rfl
  | succ n ih =>
      have heig : (Diffusion.forward st V K lcRows "spectral").2.eigComputed = true := by
        cases lcRows <;> rfl
      simp [Diffusion.eigComputationCount, heig, ih]
      omega

/-- C5: the claim describes the intended precondition checks, but the very
first statement of `compare_attractors` is
`assert hasattr(data, ('emb_2d', ))`, whose attribute name is a tuple:
`getattr` raises `TypeError` (not caught by `hasattr`) on every call, so the
function fails even when all clustering artifacts are present and the slice
indices are valid and distinct. -/
theorem compare_attractors_always_type_error (data : AttractorData) (s t : Int) :
    compare_attractors data s t = Except.error typeErrorMsg := rfl

/-- C10: `setup_layers` divides by zero when `emb_dim == 1` (the geometric
series expression divides by `1 - emb_dim`), and for `emb_dim ≥ 2` the
cumulative channel count before the inner-product adjustment equals
`signal_dim · Σ_{i=0}^{order} emb_dim^i`. -/
theorem setup_layers_cum_channels_spec (s e o : Nat) :
    setup_layers_cum_channels s 1 o = Except.error zeroDivisionErrorMsg ∧
    (2 ≤ e → setup_layers_cum_channels s e o =
      Except.ok ((s : Int) * ∑ i ∈ Finset.range (o + 1), (e : Int) ^ i)) := by
  refine ⟨by simp [setup_layers_cum_channels], fun he => ?_⟩
  have hne : (1 : Int) - (e : Int) ≠ 0 := by
    have h2 : (2 : Int) ≤ (e : Int) := by exact_mod_cast he
    omega
  have hgeom : (∑ i ∈ Finset.range (o + 1), (e : Int) ^ i) * ((e : Int) - 1) =
      (e : Int) ^ (o + 1) - 1 := geom_sum_mul _ _
  have key : (1 : Int) - (e : Int) ^ (o + 1) =
      (1 - (e : Int)) * ∑ i ∈ Finset.range (o + 1), (e : Int) ^ i := by
    have h3 : (1 - (e : Int)) * (∑ i ∈ Finset.range (o + 1), (e : Int) ^ i) =
        -((∑ i ∈ Finset.range (o + 1), (e : Int) ^ i) * ((e : Int) - 1)) := by ring
    rw [h3, hgeom]; ring
  simp only [setup_layers_cum_channels, if_neg hne]
  rw [key, Int.mul_fdiv_cancel_left _ hne]

/-- C10 witness: `signal_dim = 3`, `emb_dim = 2`, `order = 2` gives
`3 · (1 + 2 + 4) = 21`, and `emb_dim = 1` raises `ZeroDivisionError`. -/
theorem setup_layers_cum_channels_spec_witness :
    (setup_layers_cum_channels 3 1 2 = Except.error zeroDivisionErrorMsg ∧
      (2 ≤ 2 ∧ setup_layers_cum_channels 3 2 2 =
        Except.ok ((3 : Int) * ∑ i ∈ Finset.range 3, (2 : Int) ^ i))) :=
  ⟨(setup_layers_cum_channels_spec 3 1 2).1,
    ⟨by decide, (setup_layers_cum_channels_spec 3 2 2).2 (by decide)⟩⟩

end MARBLE
